import Mathlib

/-!
Verification of the tangram dataset validator (`src/main.py`).

Encodings are modelled as `List Char`.  Python exceptions become explicit
result types: `Except VErr Unit` for the syntactic validator, and outcome
types with a distinguished `keyError` constructor for the pairwise and
dataset validators, because the unguarded dictionary lookup
`ARROW_OPPOSITES[l1]` can raise a `KeyError` that is not a
`ValidationException`.  Python dicts are modelled as insertion-ordered
association lists.
-/

/-- The `ARROW_OPPOSITES` dict of `main.py`: a lookup that may fail. -/
def ARROW_OPPOSITES (c : Char) : Option Char :=
  if c = 'P' then some 'S'
  else if c = 'U' then some 'D'
  else if c = 'S' then some 'P'
  else if c = 'D' then some 'U'
  else none

/-- `is_color`: membership of the letter in the string `"RYB"`. -/
def is_color (letter : Char) : Bool :=
  letter = 'R' || letter = 'Y' || letter = 'B'

/-- `is_arrow`: membership of the letter in the keys of `ARROW_OPPOSITES`. -/
def is_arrow (letter : Char) : Bool :=
  (ARROW_OPPOSITES letter).isSome

/-- The distinct `ValidationException`s raised by `validate_tangram` and
`validate_tangram_pair`, one constructor per `raise` site, carrying the
data interpolated into the message. -/
inductive VErr where
  | sizeMismatch
  | invalidSymbol (c : Char)
  | colorCountMismatch (n : Nat)
  | arrowCountMismatch (n : Nat)
  | arrowColorMismatch (i : Nat) (l1 l2 : Char)
  | nonMatchingArrows (i : Nat) (l1 l2 : Char)
deriving DecidableEq

/-- The index carried by a positional mismatch error (the spec's
`PositionMismatch(i)`); `none` for the entry-scoped errors. -/
def errIndex : VErr → Option Nat
  | .arrowColorMismatch i _ _ => some i
  | .nonMatchingArrows i _ _ => some i
  | _ => none

/-- The counting loop of `validate_tangram`: classify each letter,
raising at the first letter that is neither color nor arrow. -/
def count_loop (tangram : List Char) (color_count arrow_count : Nat) :
    Except VErr (Nat × Nat) :=
  match tangram with
  | [] => .ok (color_count, arrow_count)
  | letter :: rest =>
    if is_color letter then count_loop rest (color_count + 1) arrow_count
    else if is_arrow letter then count_loop rest color_count (arrow_count + 1)
    else .error (.invalidSymbol letter)

/-- `validate_tangram`: length check, per-letter classification, then the
two count checks, in the order of the Python source. -/
def validate_tangram (tangram : List Char) : Except VErr Unit :=
  if tangram.length ≠ 6 then .error .sizeMismatch
  else
    match count_loop tangram 0 0 with
    | .error e => .error e
    | .ok (color_count, arrow_count) =>
      if color_count ≠ 4 then .error (.colorCountMismatch color_count)
      else if arrow_count ≠ 2 then .error (.arrowCountMismatch arrow_count)
      else .ok ()

/-- Outcome of `validate_tangram_pair`: success, a `ValidationException`,
or an uncaught `KeyError` from `ARROW_OPPOSITES[l1]`. -/
inductive PairOutcome where
  | ok
  | err (e : VErr)
  | keyError (c : Char)
deriving DecidableEq

/-- The loop of `validate_tangram_pair` over `zip(tangram1, tangram2)`,
carrying the running index `i`. -/
def pair_loop (i : Nat) : List Char → List Char → PairOutcome
  | [], _ => .ok
  | _, [] => .ok
  | l1 :: r1, l2 :: r2 =>
    if is_color l1 then
      if !is_color l2 then .err (.arrowColorMismatch i l1 l2)
      else pair_loop (i + 1) r1 r2
    else
      if !is_arrow l2 then .err (.arrowColorMismatch i l1 l2)
      else
        match ARROW_OPPOSITES l1 with
        | none => .keyError l1
        | some opp =>
          if opp ≠ l2 then .err (.nonMatchingArrows i l1 l2)
          else pair_loop (i + 1) r1 r2

/-- `validate_tangram_pair tangram1 tangram2`. -/
def validate_tangram_pair (tangram1 tangram2 : List Char) : PairOutcome :=
  pair_loop 0 tangram1 tangram2

/-- The `ValidationException`s raised by `validate_tangrams`, one
constructor per `raise` site (set names `wz`/`codm` baked into the
constructor, matching the literal set names of the source). -/
inductive DErr where
  | badSoloWz (name : Nat) (cause : VErr)
  | badSoloCodm (name : String) (cause : VErr)
  | unmappedWz (name : Nat)
  | unmappedCodm (name : String)
  | missingWz (name : Nat)
  | missingCodm (name : String)
  | badPair (wzName : Nat) (codmName : String) (cause : VErr)
deriving DecidableEq

/-- Outcome of `validate_tangrams`: success, a `ValidationException`, or
a `KeyError` escaping from `validate_tangram_pair` (the `try` only
catches `ValidationException`). -/
inductive RunOutcome where
  | ok
  | err (e : DErr)
  | keyError (c : Char)
deriving DecidableEq

/-- First phase of `validate_tangrams` for the `wz` set: per entry, in
order, syntactic validation then membership among `mapping.keys()`. -/
def validate_set_wz (mapping : List (Nat × String)) :
    List (Nat × List Char) → Option DErr
  | [] => none
  | (name, tangram) :: rest =>
    match validate_tangram tangram with
    | .error e => some (.badSoloWz name e)
    | .ok _ =>
      if (mapping.map Prod.fst).contains name then validate_set_wz mapping rest
      else some (.unmappedWz name)

/-- First phase of `validate_tangrams` for the `codm` set: per entry, in
order, syntactic validation then membership among `mapping.values()`. -/
def validate_set_codm (mapping : List (Nat × String)) :
    List (String × List Char) → Option DErr
  | [] => none
  | (name, tangram) :: rest =>
    match validate_tangram tangram with
    | .error e => some (.badSoloCodm name e)
    | .ok _ =>
      if (mapping.map Prod.snd).contains name then validate_set_codm mapping rest
      else some (.unmappedCodm name)

/-- Second phase of `validate_tangrams`: iterate the mapping in order,
skip falsy (empty) target names, look up both tangrams, then run the
pairwise validator, wrapping its `ValidationException`s as `Bad pair`. -/
def validate_pairs (wz : List (Nat × List Char)) (codm : List (String × List Char)) :
    List (Nat × String) → RunOutcome
  | [] => .ok
  | (wzName, codmName) :: rest =>
    if codmName = "" then validate_pairs wz codm rest
    else
      match List.lookup wzName wz with
      | none => .err (.missingWz wzName)
      | some wzTangram =>
        match List.lookup codmName codm with
        | none => .err (.missingCodm codmName)
        | some codmTangram =>
          match validate_tangram_pair wzTangram codmTangram with
          | .ok => validate_pairs wz codm rest
          | .err e => .err (.badPair wzName codmName e)
          | .keyError c => .keyError c

/-- `validate_tangrams`: the `wz` set pass, then the `codm` set pass,
then the per-mapping pairwise pass. -/
def validate_tangrams (wz : List (Nat × List Char)) (codm : List (String × List Char))
    (mapping : List (Nat × String)) : RunOutcome :=
  match validate_set_wz mapping wz with
  | some e => .err e
  | none =>
    match validate_set_codm mapping codm with
    | some e => .err e
    | none => validate_pairs wz codm mapping

/-- A source/target letter pair that `validate_tangram_pair` accepts at
one position: colors face colors, and a non-color source letter must face
the arrow that `ARROW_OPPOSITES` assigns to it. -/
def matchesAt (l1 l2 : Char) : Bool :=
  if is_color l1 then is_color l2
  else is_arrow l2 && (ARROW_OPPOSITES l1 == some l2)

/-- Index of the first position of the zipped pair where `matchesAt`
fails, if any. -/
def firstMismatch : List Char → List Char → Option Nat
  | l1 :: r1, l2 :: r2 =>
    if matchesAt l1 l2 then (firstMismatch r1 r2).map (· + 1) else some 0
  | _, _ => none

instance {ε α : Type} [DecidableEq ε] [DecidableEq α] : DecidableEq (Except ε α)
  | .ok a, .ok b =>
    if h : a = b then .isTrue (by rw [h]) else .isFalse (fun he => h (Except.ok.inj he))
  | .error a, .error b =>
    if h : a = b then .isTrue (by rw [h]) else .isFalse (fun he => h (Except.error.inj he))
  | .ok _, .error _ => .isFalse (fun he => Except.noConfusion he)
  | .error _, .ok _ => .isFalse (fun he => Except.noConfusion he)

theorem arrow_cases {c : Char} (h : is_arrow c = true) :
    c = 'P' ∨ c = 'U' ∨ c = 'S' ∨ c = 'D' := by
  unfold is_arrow ARROW_OPPOSITES at h
  split_ifs at h with h1 h2 h3 h4
  · exact Or.inl h1
  · exact Or.inr (Or.inl h2)
  · exact Or.inr (Or.inr (Or.inl h3))
  · exact Or.inr (Or.inr (Or.inr h4))
  · simp at h

theorem color_not_arrow {c : Char} (h : is_color c = true) : is_arrow c = false := by
  unfold is_color at h
  simp only [Bool.or_eq_true, decide_eq_true_eq] at h
  rcases h with (h | h) | h <;> subst h <;> decide

theorem arrow_not_color {c : Char} (h : is_arrow c = true) : is_color c = false := by
  rcases arrow_cases h with h | h | h | h <;> subst h <;> decide

theorem arrow_opposite_total {c : Char} (h : is_arrow c = true) :
    ∃ d, ARROW_OPPOSITES c = some d ∧ d ≠ c ∧ is_arrow d = true ∧ ARROW_OPPOSITES d = some c := by
  rcases arrow_cases h with h | h | h | h <;> subst h
  · exact ⟨'S', by decide⟩
  · exact ⟨'D', by decide⟩
  · exact ⟨'P', by decide⟩
  · exact ⟨'U', by decide⟩

theorem opposite_arrow {c d : Char} (h : ARROW_OPPOSITES c = some d) : is_arrow d = true := by
  unfold ARROW_OPPOSITES at h
  split_ifs at h <;> (injection h with h; subst h; decide)

theorem matchesAt_color {l1 l2 : Char} (hc : is_color l1 = true) :
    matchesAt l1 l2 = is_color l2 := by
  simp [matchesAt, hc]

theorem matchesAt_arrow {l1 l2 : Char} (ha : is_arrow l1 = true) :
    matchesAt l1 l2 = true ↔ ARROW_OPPOSITES l1 = some l2 := by
  have hc : is_color l1 = false := arrow_not_color ha
  unfold matchesAt
  simp only [hc, Bool.false_eq_true, if_false, Bool.and_eq_true, beq_iff_eq]
  constructor
  · rintro ⟨-, h⟩; exact h
  · intro h; exact ⟨opposite_arrow h, h⟩

/-- The per-position compatibility rule as the spec states it: a color in
the source must face a color, an arrow must face its defined opposite. -/
@[reducible] def pairCond (l1 l2 : Char) : Prop :=
  (is_color l1 = true → is_color l2 = true) ∧
  (is_arrow l1 = true → ARROW_OPPOSITES l1 = some l2)

theorem matchesAt_iff_pairCond {l1 l2 : Char} (hv : (is_color l1 || is_arrow l1) = true) :
    matchesAt l1 l2 = true ↔ pairCond l1 l2 := by
  by_cases hc : is_color l1 = true
  · have ha : is_arrow l1 = false := color_not_arrow hc
    rw [matchesAt_color hc]
    simp [pairCond, hc, ha]
  · have hcf : is_color l1 = false := Bool.eq_false_iff.mpr hc
    have ha : is_arrow l1 = true := by
      rcases (by simpa using hv : is_color l1 = true ∨ is_arrow l1 = true) with h | h
      · exact absurd h hc
      · exact h
    rw [matchesAt_arrow ha]
    simp [pairCond, hcf, ha]

theorem firstMismatch_none_iff : ∀ (s t : List Char),
    firstMismatch s t = none ↔
      ∀ i, i < s.length → i < t.length →
        matchesAt (s.getD i 'R') (t.getD i 'R') = true := by
  intro s
  induction s with
  | nil => intro t; cases t <;> simp [firstMismatch]
  | cons l1 r1 ih =>
    intro t
    cases t with
    | nil => simp [firstMismatch]
    | cons l2 r2 =>
      show (if matchesAt l1 l2 then (firstMismatch r1 r2).map (· + 1) else some 0) = none ↔ _
      by_cases hm : matchesAt l1 l2 = true
      · rw [if_pos hm, Option.map_eq_none', ih r2]
        constructor
        · intro h i hi1 hi2
          cases i with
          | zero => simpa using hm
          | succ n =>
            simpa using h n (Nat.lt_of_succ_lt_succ hi1) (Nat.lt_of_succ_lt_succ hi2)
        · intro h i hi1 hi2
          simpa using h (i + 1) (Nat.succ_lt_succ hi1) (Nat.succ_lt_succ hi2)
      · rw [if_neg hm]
        constructor
        · intro h
          exact Option.noConfusion h
        · intro h
          exact absurd (by simpa using h 0 (Nat.succ_pos _) (Nat.succ_pos _)) hm

theorem firstMismatch_some_spec : ∀ (s t : List Char) (j : Nat),
    firstMismatch s t = some j →
      j < s.length ∧ j < t.length ∧
      matchesAt (s.getD j 'R') (t.getD j 'R') = false ∧
      ∀ k, k < j → matchesAt (s.getD k 'R') (t.getD k 'R') = true := by
  intro s
  induction s with
  | nil => intro t j h; cases t <;> simp [firstMismatch] at h
  | cons l1 r1 ih =>
    intro t j h
    cases t with
    | nil => simp [firstMismatch] at h
    | cons l2 r2 =>
      rw [show firstMismatch (l1 :: r1) (l2 :: r2)
            = if matchesAt l1 l2 then (firstMismatch r1 r2).map (· + 1) else some 0
          from rfl] at h
      by_cases hm : matchesAt l1 l2 = true
      · rw [if_pos hm, Option.map_eq_some'] at h
        obtain ⟨j', hj', hjj⟩ := h
        subst hjj
        obtain ⟨h1, h2, h3, h4⟩ := ih r2 j' hj'
        refine ⟨Nat.succ_lt_succ h1, Nat.succ_lt_succ h2, by simpa using h3, ?_⟩
        intro k hk
        cases k with
        | zero => simpa using hm
        | succ n => simpa using h4 n (Nat.lt_of_succ_lt_succ hk)
      · rw [if_neg hm] at h
        injection h with h
        subst h
        exact ⟨Nat.succ_pos _, Nat.succ_pos _, by simpa using Bool.eq_false_iff.mpr hm,
          fun k hk => absurd hk (Nat.not_lt_zero k)⟩

theorem pair_loop_cons_matched {l1 l2 : Char} (hm : matchesAt l1 l2 = true)
    (i0 : Nat) (r1 r2 : List Char) :
    pair_loop i0 (l1 :: r1) (l2 :: r2) = pair_loop (i0 + 1) r1 r2 := by
  unfold matchesAt at hm
  by_cases hc : is_color l1 = true
  · rw [if_pos hc] at hm
    simp [pair_loop, hc, hm]
  · have hcf : is_color l1 = false := Bool.eq_false_iff.mpr hc
    rw [if_neg hc] at hm
    obtain ⟨ha2, hop⟩ :=
      (by simpa using hm : is_arrow l2 = true ∧ (ARROW_OPPOSITES l1 == some l2) = true)
    have hop' : ARROW_OPPOSITES l1 = some l2 := by simpa using hop
    simp [pair_loop, hcf, ha2, hop']

theorem pair_loop_cons_mismatched {l1 l2 : Char} (hv : (is_color l1 || is_arrow l1) = true)
    (hm : matchesAt l1 l2 = false) (i0 : Nat) (r1 r2 : List Char) :
    ∃ e, pair_loop i0 (l1 :: r1) (l2 :: r2) = .err e ∧ errIndex e = some i0 := by
  by_cases hc : is_color l1 = true
  · have h2 : is_color l2 = false := by rwa [matchesAt_color hc] at hm
    exact ⟨.arrowColorMismatch i0 l1 l2, by simp [pair_loop, hc, h2], rfl⟩
  · have hcf : is_color l1 = false := Bool.eq_false_iff.mpr hc
    have ha : is_arrow l1 = true := by
      rcases (by simpa using hv : is_color l1 = true ∨ is_arrow l1 = true) with h | h
      · exact absurd h hc
      · exact h
    obtain ⟨opp, hop, -, -, -⟩ := arrow_opposite_total ha
    by_cases ha2 : is_arrow l2 = true
    · have hne : opp ≠ l2 := by
        intro he
        subst he
        simp only [matchesAt, hcf, Bool.false_eq_true, if_false, ha2, Bool.true_and, hop] at hm
        simp at hm
      exact ⟨.nonMatchingArrows i0 l1 l2, by simp [pair_loop, hcf, ha2, hop, hne], rfl⟩
    · have ha2f : is_arrow l2 = false := Bool.eq_false_iff.mpr ha2
      exact ⟨.arrowColorMismatch i0 l1 l2, by simp [pair_loop, hcf, ha2f], rfl⟩

theorem pair_loop_ok_iff : ∀ (s t : List Char) (i0 : Nat),
    pair_loop i0 s t = PairOutcome.ok ↔ firstMismatch s t = none := by
  intro s
  induction s with
  | nil => intro t i0; cases t <;> simp [pair_loop, firstMismatch]
  | cons l1 r1 ih =>
    intro t i0
    cases t with
    | nil => simp [pair_loop, firstMismatch]
    | cons l2 r2 =>
      show _ ↔ (if matchesAt l1 l2 then (firstMismatch r1 r2).map (· + 1) else some 0) = none
      by_cases hm : matchesAt l1 l2 = true
      · rw [if_pos hm, pair_loop_cons_matched hm, Option.map_eq_none', ih r2 (i0 + 1)]
      · have hmf : matchesAt l1 l2 = false := Bool.eq_false_iff.mpr hm
        rw [if_neg hm]
        by_cases hv : (is_color l1 || is_arrow l1) = true
        · obtain ⟨e, he, -⟩ := pair_loop_cons_mismatched hv hmf i0 r1 r2
          rw [he]
          constructor
          · intro h; exact PairOutcome.noConfusion h
          · intro h; exact Option.noConfusion h
        · have hvf : (is_color l1 || is_arrow l1) = false := Bool.eq_false_iff.mpr hv
          have hcf : is_color l1 = false := by
            cases hcl : is_color l1
            · rfl
            · rw [hcl] at hvf; simp at hvf
          have haf : is_arrow l1 = false := by
            cases hal : is_arrow l1
            · rfl
            · rw [hal] at hvf; simp at hvf
          have hopn : ARROW_OPPOSITES l1 = none := by
            cases hop : ARROW_OPPOSITES l1 with
            | none => rfl
            | some d => rw [show is_arrow l1 = (ARROW_OPPOSITES l1).isSome from rfl, hop] at haf; simp at haf
          by_cases ha2 : is_arrow l2 = true
          · rw [show pair_loop i0 (l1 :: r1) (l2 :: r2) = .keyError l1 by
              simp [pair_loop, hcf, ha2, hopn]]
            constructor
            · intro h; exact PairOutcome.noConfusion h
            · intro h; exact Option.noConfusion h
          · have ha2f : is_arrow l2 = false := Bool.eq_false_iff.mpr ha2
            rw [show pair_loop i0 (l1 :: r1) (l2 :: r2) = .err (.arrowColorMismatch i0 l1 l2) by
              simp [pair_loop, hcf, ha2f]]
            constructor
            · intro h; exact PairOutcome.noConfusion h
            · intro h; exact Option.noConfusion h

theorem pair_loop_err_spec : ∀ (s t : List Char) (i0 j : Nat),
    (∀ c ∈ s, (is_color c || is_arrow c) = true) →
    firstMismatch s t = some j →
    ∃ e, pair_loop i0 s t = .err e ∧ errIndex e = some (i0 + j) := by
  intro s
  induction s with
  | nil => intro t i0 j hv h; cases t <;> simp [firstMismatch] at h
  | cons l1 r1 ih =>
    intro t i0 j hv h
    cases t with
    | nil => simp [firstMismatch] at h
    | cons l2 r2 =>
      rw [show firstMismatch (l1 :: r1) (l2 :: r2)
            = if matchesAt l1 l2 then (firstMismatch r1 r2).map (· + 1) else some 0
          from rfl] at h
      by_cases hm : matchesAt l1 l2 = true
      · rw [if_pos hm, Option.map_eq_some'] at h
        obtain ⟨j', hj', hjj⟩ := h
        subst hjj
        obtain ⟨e, he, hei⟩ := ih r2 (i0 + 1) j' (fun c hc => hv c (List.mem_cons_of_mem _ hc)) hj'
        refine ⟨e, ?_, ?_⟩
        · rw [pair_loop_cons_matched hm, he]
        · rw [hei]
          congr 1
          omega
      · rw [if_neg hm] at h
        injection h with h
        subst h
        have hmf : matchesAt l1 l2 = false := Bool.eq_false_iff.mpr hm
        obtain ⟨e, he, hei⟩ :=
          pair_loop_cons_mismatched (hv l1 (List.mem_cons_self _ _)) hmf i0 r1 r2
        exact ⟨e, he, by simpa using hei⟩

theorem count_loop_ok_of_valid : ∀ (s : List Char) (c0 a0 : Nat),
    (∀ c ∈ s, (is_color c || is_arrow c) = true) →
    count_loop s c0 a0 = .ok (c0 + (s.filter is_color).length, a0 + (s.filter is_arrow).length) := by
  intro s
  induction s with
  | nil => intro c0 a0 _; simp [count_loop]
  | cons a s ih =>
    intro c0 a0 hv
    have hva : (is_color a || is_arrow a) = true := hv a (List.mem_cons_self _ _)
    have hrest : ∀ c ∈ s, (is_color c || is_arrow c) = true :=
      fun c hc => hv c (List.mem_cons_of_mem _ hc)
    by_cases hc : is_color a = true
    · have haf : is_arrow a = false := color_not_arrow hc
      have h1 : ((a :: s).filter is_color).length = (s.filter is_color).length + 1 := by
        simp [List.filter_cons, hc]
      have h2 : ((a :: s).filter is_arrow).length = (s.filter is_arrow).length := by
        simp [List.filter_cons, haf]
      rw [show count_loop (a :: s) c0 a0 = count_loop s (c0 + 1) a0 by simp [count_loop, hc]]
      rw [ih (c0 + 1) a0 hrest, h1, h2]
      have h3 : c0 + 1 + (s.filter is_color).length
          = c0 + ((s.filter is_color).length + 1) := by omega
      rw [h3]
    · have hcf : is_color a = false := Bool.eq_false_iff.mpr hc
      have ha : is_arrow a = true := by
        rcases (by simpa using hva : is_color a = true ∨ is_arrow a = true) with h | h
        · exact absurd h hc
        · exact h
      have h1 : ((a :: s).filter is_color).length = (s.filter is_color).length := by
        simp [List.filter_cons, hcf]
      have h2 : ((a :: s).filter is_arrow).length = (s.filter is_arrow).length + 1 := by
        simp [List.filter_cons, ha]
      rw [show count_loop (a :: s) c0 a0 = count_loop s c0 (a0 + 1) by
        simp [count_loop, hcf, ha]]
      rw [ih c0 (a0 + 1) hrest, h1, h2]
      have h3 : a0 + 1 + (s.filter is_arrow).length
          = a0 + ((s.filter is_arrow).length + 1) := by omega
      rw [h3]

theorem count_loop_invalid : ∀ (s : List Char) (c0 a0 : Nat) (c : Char),
    c ∈ s → (is_color c || is_arrow c) = false →
    ∃ d, count_loop s c0 a0 = .error (.invalidSymbol d) ∧ d ∈ s ∧
      (is_color d || is_arrow d) = false := by
  intro s
  induction s with
  | nil => intro c0 a0 c hmem _; cases hmem
  | cons a s ih =>
    intro c0 a0 c hmem hval
    by_cases hc : is_color a = true
    · have hca : c ≠ a := by
        intro he; subst he; rw [hc] at hval; simp at hval
      have hmem' : c ∈ s := by
        rcases List.mem_cons.mp hmem with h | h
        · exact absurd h hca
        · exact h
      obtain ⟨d, hd, hdm, hdv⟩ := ih (c0 + 1) a0 c hmem' hval
      refine ⟨d, ?_, List.mem_cons_of_mem _ hdm, hdv⟩
      rw [show count_loop (a :: s) c0 a0 = count_loop s (c0 + 1) a0 by simp [count_loop, hc]]
      exact hd
    · have hcf : is_color a = false := Bool.eq_false_iff.mpr hc
      by_cases ha : is_arrow a = true
      · have hca : c ≠ a := by
          intro he; subst he; rw [ha] at hval; simp at hval
        have hmem' : c ∈ s := by
          rcases List.mem_cons.mp hmem with h | h
          · exact absurd h hca
          · exact h
        obtain ⟨d, hd, hdm, hdv⟩ := ih c0 (a0 + 1) c hmem' hval
        refine ⟨d, ?_, List.mem_cons_of_mem _ hdm, hdv⟩
        rw [show count_loop (a :: s) c0 a0 = count_loop s c0 (a0 + 1) by
          simp [count_loop, hcf, ha]]
        exact hd
      · have haf : is_arrow a = false := Bool.eq_false_iff.mpr ha
        refine ⟨a, ?_, List.mem_cons_self _ _, by simp [hcf, haf]⟩
        simp [count_loop, hcf, haf]

theorem count_loop_sum : ∀ (s : List Char) (c0 a0 ccount acount : Nat),
    count_loop s c0 a0 = .ok (ccount, acount) → ccount + acount = c0 + a0 + s.length := by
  intro s
  induction s with
  | nil =>
    intro c0 a0 ccount acount h
    simp only [count_loop] at h
    injection h with h'
    injection h' with h1 h2
    subst h1
    subst h2
    simp
  | cons a s ih =>
    intro c0 a0 ccount acount h
    by_cases hc : is_color a = true
    · rw [show count_loop (a :: s) c0 a0 = count_loop s (c0 + 1) a0 by
        simp [count_loop, hc]] at h
      have := ih (c0 + 1) a0 ccount acount h
      simp only [List.length_cons]
      omega
    · have hcf : is_color a = false := Bool.eq_false_iff.mpr hc
      by_cases ha : is_arrow a = true
      · rw [show count_loop (a :: s) c0 a0 = count_loop s c0 (a0 + 1) by
          simp [count_loop, hcf, ha]] at h
        have := ih c0 (a0 + 1) ccount acount h
        simp only [List.length_cons]
        omega
      · have haf : is_arrow a = false := Bool.eq_false_iff.mpr ha
        rw [show count_loop (a :: s) c0 a0 = .error (.invalidSymbol a) by
          simp [count_loop, hcf, haf]] at h
        exact Except.noConfusion h

theorem count_loop_error_shape : ∀ (s : List Char) (c0 a0 : Nat) (e : VErr),
    count_loop s c0 a0 = .error e → ∃ d, e = .invalidSymbol d := by
  intro s
  induction s with
  | nil => intro c0 a0 e h; exact Except.noConfusion h
  | cons a s ih =>
    intro c0 a0 e h
    by_cases hc : is_color a = true
    · rw [show count_loop (a :: s) c0 a0 = count_loop s (c0 + 1) a0 by
        simp [count_loop, hc]] at h
      exact ih (c0 + 1) a0 e h
    · have hcf : is_color a = false := Bool.eq_false_iff.mpr hc
      by_cases ha : is_arrow a = true
      · rw [show count_loop (a :: s) c0 a0 = count_loop s c0 (a0 + 1) by
          simp [count_loop, hcf, ha]] at h
        exact ih c0 (a0 + 1) e h
      · have haf : is_arrow a = false := Bool.eq_false_iff.mpr ha
        rw [show count_loop (a :: s) c0 a0 = .error (.invalidSymbol a) by
          simp [count_loop, hcf, haf]] at h
        exact ⟨a, (Except.error.inj h).symm⟩

theorem validate_tangram_ok_facts {s : List Char} (h : validate_tangram s = .ok ()) :
    s.length = 6 ∧ ∀ c ∈ s, (is_color c || is_arrow c) = true := by
  unfold validate_tangram at h
  by_cases h6 : s.length = 6
  · refine ⟨h6, ?_⟩
    intro c hc
    by_contra hv
    have hv' : (is_color c || is_arrow c) = false := Bool.eq_false_iff.mpr hv
    obtain ⟨d, hd, -, -⟩ := count_loop_invalid s 0 0 c hc hv'
    rw [if_neg (by omega), hd] at h
    exact Except.noConfusion h
  · rw [if_pos h6] at h
    exact Except.noConfusion h

theorem filter_color_arrow_le : ∀ (s : List Char),
    (s.filter is_color).length + (s.filter is_arrow).length ≤ s.length := by
  intro s
  induction s with
  | nil => simp
  | cons a s ih =>
    by_cases hc : is_color a = true
    · have haf : is_arrow a = false := color_not_arrow hc
      simp only [List.filter_cons, hc, haf, List.length_cons]
      simp only [if_true, Bool.false_eq_true, if_false, List.length_cons]
      omega
    · have hcf : is_color a = false := Bool.eq_false_iff.mpr hc
      cases ha : is_arrow a
      · simp only [List.filter_cons, hcf, ha, Bool.false_eq_true, if_false, List.length_cons]
        omega
      · simp only [List.filter_cons, hcf, ha, Bool.false_eq_true, if_false, if_true,
          List.length_cons]
        omega

theorem all_valid_of_counts : ∀ (s : List Char),
    (s.filter is_color).length + (s.filter is_arrow).length = s.length →
    ∀ c ∈ s, (is_color c || is_arrow c) = true := by
  intro s
  induction s with
  | nil => intro _ c hc; cases hc
  | cons a s ih =>
    intro h c hc
    by_cases hca : is_color a = true
    · have haf : is_arrow a = false := color_not_arrow hca
      rcases List.mem_cons.mp hc with h' | h'
      · subst h'; simp [hca]
      · refine ih ?_ c h'
        simp only [List.filter_cons, hca, haf, if_true, Bool.false_eq_true, if_false,
          List.length_cons] at h
        omega
    · have hcf : is_color a = false := Bool.eq_false_iff.mpr hca
      by_cases haa : is_arrow a = true
      · rcases List.mem_cons.mp hc with h' | h'
        · subst h'; simp [haa]
        · refine ih ?_ c h'
          simp only [List.filter_cons, hcf, haa, if_true, Bool.false_eq_true, if_false,
            List.length_cons] at h
          omega
      · have haf : is_arrow a = false := Bool.eq_false_iff.mpr haa
        exfalso
        simp only [List.filter_cons, hcf, haf, Bool.false_eq_true, if_false,
          List.length_cons] at h
        have := filter_color_arrow_le s
        omega

/-- An entry of the `wz` set that the first phase accepts: syntactically
valid and named among the mapping keys. -/
@[reducible] def wzEntryOk (mapping : List (Nat × String)) (entry : Nat × List Char) : Prop :=
  validate_tangram entry.2 = .ok () ∧ (mapping.map Prod.fst).contains entry.1 = true

/-- The error the first phase reports for an offending `wz` entry: the
wrapped syntactic failure if there is one, otherwise the unmapped-name
failure. -/
def wzEntryErr (entry : Nat × List Char) : DErr :=
  match validate_tangram entry.2 with
  | .error e => .badSoloWz entry.1 e
  | .ok _ => .unmappedWz entry.1

/-- An entry of the `codm` set that the first phase accepts. -/
@[reducible] def codmEntryOk (mapping : List (Nat × String)) (entry : String × List Char) : Prop :=
  validate_tangram entry.2 = .ok () ∧ (mapping.map Prod.snd).contains entry.1 = true

/-- The error the first phase reports for an offending `codm` entry. -/
def codmEntryErr (entry : String × List Char) : DErr :=
  match validate_tangram entry.2 with
  | .error e => .badSoloCodm entry.1 e
  | .ok _ => .unmappedCodm entry.1

/-- A mapping entry the pairwise phase passes through without error:
skipped because the target name is empty, or both lookups succeed and the
pairwise validator accepts. -/
@[reducible] def pairEntryOk (wz : List (Nat × List Char)) (codm : List (String × List Char))
    (entry : Nat × String) : Prop :=
  entry.2 = "" ∨
  ∃ wzTangram codmTangram,
    List.lookup entry.1 wz = some wzTangram ∧
    List.lookup entry.2 codm = some codmTangram ∧
    validate_tangram_pair wzTangram codmTangram = .ok

theorem validate_set_wz_append_ok : ∀ (pre rest : List (Nat × List Char))
    (mapping : List (Nat × String)),
    (∀ p ∈ pre, wzEntryOk mapping p) →
    validate_set_wz mapping (pre ++ rest) = validate_set_wz mapping rest := by
  intro pre
  induction pre with
  | nil => intro rest mapping _; rfl
  | cons p pre ih =>
    intro rest mapping hv
    obtain ⟨n, t⟩ := p
    obtain ⟨h1, h2⟩ := hv (n, t) (List.mem_cons_self _ _)
    simp only at h1 h2
    have hstep : validate_set_wz mapping ((n, t) :: (pre ++ rest))
        = validate_set_wz mapping (pre ++ rest) := by
      simp only [validate_set_wz, h1, h2, if_true]
    exact hstep.trans (ih rest mapping (fun q hq => hv q (List.mem_cons_of_mem _ hq)))

theorem validate_set_wz_first_bad (mapping : List (Nat × String))
    (pre : List (Nat × List Char)) (entry : Nat × List Char) (rest : List (Nat × List Char))
    (hpre : ∀ p ∈ pre, wzEntryOk mapping p) (hbad : ¬ wzEntryOk mapping entry) :
    validate_set_wz mapping (pre ++ entry :: rest) = some (wzEntryErr entry) := by
  rw [validate_set_wz_append_ok pre (entry :: rest) mapping hpre]
  obtain ⟨n, t⟩ := entry
  cases hvt : validate_tangram t with
  | error e => simp only [validate_set_wz, wzEntryErr, hvt]
  | ok u =>
    cases u
    have hcont : (mapping.map Prod.fst).contains n = false := by
      cases hcn : (mapping.map Prod.fst).contains n
      · rfl
      · exact absurd ⟨hvt, hcn⟩ hbad
    simp only [validate_set_wz, wzEntryErr, hvt, hcont, Bool.false_eq_true, if_false]

theorem validate_set_codm_append_ok : ∀ (pre rest : List (String × List Char))
    (mapping : List (Nat × String)),
    (∀ p ∈ pre, codmEntryOk mapping p) →
    validate_set_codm mapping (pre ++ rest) = validate_set_codm mapping rest := by
  intro pre
  induction pre with
  | nil => intro rest mapping _; rfl
  | cons p pre ih =>
    intro rest mapping hv
    obtain ⟨n, t⟩ := p
    obtain ⟨h1, h2⟩ := hv (n, t) (List.mem_cons_self _ _)
    simp only at h1 h2
    have hstep : validate_set_codm mapping ((n, t) :: (pre ++ rest))
        = validate_set_codm mapping (pre ++ rest) := by
      simp only [validate_set_codm, h1, h2, if_true]
    exact hstep.trans (ih rest mapping (fun q hq => hv q (List.mem_cons_of_mem _ hq)))

theorem validate_set_codm_first_bad (mapping : List (Nat × String))
    (pre : List (String × List Char)) (entry : String × List Char)
    (rest : List (String × List Char))
    (hpre : ∀ p ∈ pre, codmEntryOk mapping p) (hbad : ¬ codmEntryOk mapping entry) :
    validate_set_codm mapping (pre ++ entry :: rest) = some (codmEntryErr entry) := by
  rw [validate_set_codm_append_ok pre (entry :: rest) mapping hpre]
  obtain ⟨n, t⟩ := entry
  cases hvt : validate_tangram t with
  | error e => simp only [validate_set_codm, codmEntryErr, hvt]
  | ok u =>
    cases u
    have hcont : (mapping.map Prod.snd).contains n = false := by
      cases hcn : (mapping.map Prod.snd).contains n
      · rfl
      · exact absurd ⟨hvt, hcn⟩ hbad
    simp only [validate_set_codm, codmEntryErr, hvt, hcont, Bool.false_eq_true, if_false]

theorem validate_pairs_append_ok : ∀ (pre rest : List (Nat × String))
    (wz : List (Nat × List Char)) (codm : List (String × List Char)),
    (∀ p ∈ pre, pairEntryOk wz codm p) →
    validate_pairs wz codm (pre ++ rest) = validate_pairs wz codm rest := by
  intro pre
  induction pre with
  | nil => intro rest wz codm _; rfl
  | cons p pre ih =>
    intro rest wz codm hv
    obtain ⟨n, s⟩ := p
    have ihr := ih rest wz codm (fun q hq => hv q (List.mem_cons_of_mem _ hq))
    rcases hv (n, s) (List.mem_cons_self _ _) with h | ⟨wzT, codmT, h1, h2, h3⟩
    · simp only at h
      subst h
      have hstep : validate_pairs wz codm ((n, "") :: (pre ++ rest))
          = validate_pairs wz codm (pre ++ rest) := by rfl
      exact hstep.trans ihr
    · simp only at h1 h2 h3
      have hstep : validate_pairs wz codm ((n, s) :: (pre ++ rest))
          = validate_pairs wz codm (pre ++ rest) := by
        by_cases hs : s = ""
        · subst hs; rfl
        · simp only [validate_pairs, hs, if_false, h1, h2, h3, if_neg]
      exact hstep.trans ihr

/-- C3: every encoding of length 6 with exactly 4 color symbols and
exactly 2 arrow symbols passes `validate_tangram`. -/
theorem validate_tangram_wellformed_ok (s : List Char) (h6 : s.length = 6)
    (hc : (s.filter is_color).length = 4) (ha : (s.filter is_arrow).length = 2) :
    validate_tangram s = .ok () := by
  have hval : ∀ c ∈ s, (is_color c || is_arrow c) = true :=
    all_valid_of_counts s (by omega)
  unfold validate_tangram
  rw [if_neg (by omega), count_loop_ok_of_valid s 0 0 hval, hc, ha]
  rfl

/-- Witness for C3 at the spec's concrete example `RYBBPS`. -/
theorem validate_tangram_wellformed_ok_witness :
    validate_tangram ['R', 'Y', 'B', 'B', 'P', 'S'] = .ok () :=
  validate_tangram_wellformed_ok _ (by rfl) (by rfl) (by rfl)

/-- C7 counterexample: the encoding `"X"` contains the out-of-alphabet
symbol `X`, yet `validate_tangram` fails with the size error, not with
`InvalidSymbol`, because the length check runs first. -/
theorem validate_invalid_symbol_cex :
    (is_color 'X' || is_arrow 'X') = false ∧ 'X' ∈ ['X'] ∧
    validate_tangram ['X'] = .error .sizeMismatch ∧
    validate_tangram ['X'] ≠ .error (.invalidSymbol 'X') := by
  refine ⟨by decide, by decide, by rfl, by decide⟩

/-- C7 (amended): for any encoding of length 6 containing a symbol that is
neither a color nor an arrow, `validate_tangram` fails with
`InvalidSymbol` carrying an offending (out-of-alphabet) character of the
encoding. -/
theorem validate_invalid_symbol (s : List Char) (h6 : s.length = 6)
    (c : Char) (hmem : c ∈ s) (hval : (is_color c || is_arrow c) = false) :
    ∃ d, validate_tangram s = .error (.invalidSymbol d) ∧ d ∈ s ∧
      (is_color d || is_arrow d) = false := by
  obtain ⟨d, hd, hdm, hdv⟩ := count_loop_invalid s 0 0 c hmem hval
  refine ⟨d, ?_, hdm, hdv⟩
  unfold validate_tangram
  rw [if_neg (by omega), hd]

/-- Witness for C7's amended theorem. -/
theorem validate_invalid_symbol_witness :
    ∃ d, validate_tangram ['R', 'X', 'Y', 'B', 'B', 'P'] = .error (.invalidSymbol d) ∧
      d ∈ ['R', 'X', 'Y', 'B', 'B', 'P'] ∧ (is_color d || is_arrow d) = false :=
  validate_invalid_symbol _ (by rfl) 'X' (by decide) (by decide)

/-- C8: `validate_tangram` never fails with the arrow-count error: once
the counts are reached, length is 6 and the counts sum to 6, so a passing
color count forces the arrow count to be 2. -/
theorem validate_no_arrow_count_mismatch :
    ∀ (s : List Char) (n : Nat), validate_tangram s ≠ .error (.arrowCountMismatch n) := by
  intro s n h
  unfold validate_tangram at h
  by_cases h6 : s.length = 6
  · rw [if_neg (by omega)] at h
    cases hcl : count_loop s 0 0 with
    | error e =>
      rw [hcl] at h
      obtain ⟨d, rfl⟩ := count_loop_error_shape s 0 0 e hcl
      exact VErr.noConfusion (Except.error.inj h)
    | ok p =>
      obtain ⟨cc, ac⟩ := p
      rw [hcl] at h
      have hsum : cc + ac = 0 + 0 + s.length := count_loop_sum s 0 0 cc ac hcl
      have h' : (if cc ≠ 4 then Except.error (VErr.colorCountMismatch cc)
          else if ac ≠ 2 then Except.error (VErr.arrowCountMismatch ac)
          else Except.ok ()) = Except.error (VErr.arrowCountMismatch n) := h
      by_cases hc4 : cc = 4
      · rw [if_neg (by omega), if_neg (by omega)] at h'
        exact Except.noConfusion h'
      · rw [if_pos hc4] at h'
        exact VErr.noConfusion (Except.error.inj h')
  · rw [if_pos h6] at h
    exact VErr.noConfusion (Except.error.inj h)

/-- Witness for C8 at a concrete input. -/
theorem validate_no_arrow_count_mismatch_witness :
    validate_tangram ['X'] ≠ .error (.arrowCountMismatch 0) :=
  validate_no_arrow_count_mismatch ['X'] 0

/-- C1: for two encodings that passed `validate_tangram`,
`validate_tangram_pair` succeeds exactly when every position satisfies the
color-faces-color / arrow-faces-opposite rule, and any failure is a
positional mismatch at an index violating that rule. -/
theorem validate_pair_iff_cond (s t : List Char)
    (hs : validate_tangram s = .ok ()) (ht : validate_tangram t = .ok ()) :
    (validate_tangram_pair s t = .ok ↔
      ∀ i, i < 6 → pairCond (s.getD i 'R') (t.getD i 'R')) ∧
    (∀ e, validate_tangram_pair s t = .err e →
      ∃ i, i < 6 ∧ errIndex e = some i ∧ ¬ pairCond (s.getD i 'R') (t.getD i 'R')) := by
  obtain ⟨hs6, hsv⟩ := validate_tangram_ok_facts hs
  obtain ⟨ht6, htv⟩ := validate_tangram_ok_facts ht
  have hgv : ∀ i, i < 6 → (is_color (s.getD i 'R') || is_arrow (s.getD i 'R')) = true := by
    intro i hi
    have hi' : i < s.length := by omega
    rw [List.getD_eq_getElem s 'R' hi']
    exact hsv _ (List.getElem_mem hi')
  constructor
  · unfold validate_tangram_pair
    rw [pair_loop_ok_iff s t 0, firstMismatch_none_iff s t]
    constructor
    · intro h i hi
      exact (matchesAt_iff_pairCond (hgv i hi)).mp (h i (by omega) (by omega))
    · intro h i hi1 hi2
      exact (matchesAt_iff_pairCond (hgv i (by omega))).mpr (h i (by omega))
  · intro e he
    cases hfm : firstMismatch s t with
    | none =>
      have hok : validate_tangram_pair s t = .ok := (pair_loop_ok_iff s t 0).mpr hfm
      rw [he] at hok
      exact PairOutcome.noConfusion hok
    | some j =>
      obtain ⟨e', he', hei⟩ := pair_loop_err_spec s t 0 j hsv hfm
      have he0 : pair_loop 0 s t = PairOutcome.err e := he
      rw [he0] at he'
      have hee : e = e' := PairOutcome.err.inj he'
      subst hee
      obtain ⟨hj1, hj2, hj3, -⟩ := firstMismatch_some_spec s t j hfm
      refine ⟨j, by omega, by simpa using hei, ?_⟩
      intro hpc
      have hmm := (matchesAt_iff_pairCond (hgv j (by omega))).mpr hpc
      rw [hj3] at hmm
      exact Bool.noConfusion hmm

/-- Witness for C1 at the spec's concrete pair `RYBBPS` / `RYBBSP`. -/
theorem validate_pair_iff_cond_witness :
    validate_tangram_pair ['R', 'Y', 'B', 'B', 'P', 'S'] ['R', 'Y', 'B', 'B', 'S', 'P'] = .ok :=
  (validate_pair_iff_cond _ _ (by rfl) (by rfl)).1.mpr (by decide)

/-- C4: when at least two positions mismatch, `validate_tangram_pair`
fails with a positional mismatch at the smallest mismatching index, never
a later one. -/
theorem validate_pair_first_mismatch (s t : List Char)
    (hs : validate_tangram s = .ok ())
    (i j : Nat) (hij : i < j) (hjs : j < s.length) (hjt : j < t.length)
    (hmi : ¬ pairCond (s.getD i 'R') (t.getD i 'R'))
    (hmj : ¬ pairCond (s.getD j 'R') (t.getD j 'R')) :
    ∃ e k, validate_tangram_pair s t = .err e ∧ errIndex e = some k ∧
      ¬ pairCond (s.getD k 'R') (t.getD k 'R') ∧
      (∀ m, m < k → pairCond (s.getD m 'R') (t.getD m 'R')) ∧
      k ≤ i := by
  obtain ⟨hs6, hsv⟩ := validate_tangram_ok_facts hs
  have hgv : ∀ m, m < s.length →
      (is_color (s.getD m 'R') || is_arrow (s.getD m 'R')) = true := by
    intro m hm
    rw [List.getD_eq_getElem s 'R' hm]
    exact hsv _ (List.getElem_mem hm)
  have hmi' : matchesAt (s.getD i 'R') (t.getD i 'R') = false := by
    cases hmm : matchesAt (s.getD i 'R') (t.getD i 'R')
    · rfl
    · exact absurd ((matchesAt_iff_pairCond (hgv i (by omega))).mp hmm) hmi
  cases hfm : firstMismatch s t with
  | none =>
    exfalso
    have := (firstMismatch_none_iff s t).mp hfm i (by omega) (by omega)
    rw [hmi'] at this
    exact Bool.noConfusion this
  | some k =>
    obtain ⟨e, he, hei⟩ := pair_loop_err_spec s t 0 k hsv hfm
    obtain ⟨hk1, hk2, hk3, hk4⟩ := firstMismatch_some_spec s t k hfm
    have hki : k ≤ i := by
      by_contra hlt
      have hmk := hk4 i (by omega)
      rw [hmi'] at hmk
      exact Bool.noConfusion hmk
    refine ⟨e, k, he, by simpa using hei, ?_, ?_, hki⟩
    · intro hpc
      have hmm := (matchesAt_iff_pairCond (hgv k hk1)).mpr hpc
      rw [hk3] at hmm
      exact Bool.noConfusion hmm
    · intro m hm
      exact (matchesAt_iff_pairCond (hgv m (by omega))).mp (hk4 m hm)

/-- Witness for C4: mismatches at indices 0 and 4; the reported index is
the smallest one. -/
theorem validate_pair_first_mismatch_witness :
    ∃ e k, validate_tangram_pair ['R', 'R', 'B', 'B', 'P', 'S'] ['P', 'R', 'B', 'B', 'P', 'P']
        = .err e ∧
      errIndex e = some k ∧
      ¬ pairCond ((['R', 'R', 'B', 'B', 'P', 'S'] : List Char).getD k 'R')
        ((['P', 'R', 'B', 'B', 'P', 'P'] : List Char).getD k 'R') ∧
      (∀ m, m < k →
        pairCond ((['R', 'R', 'B', 'B', 'P', 'S'] : List Char).getD m 'R')
          ((['P', 'R', 'B', 'B', 'P', 'P'] : List Char).getD m 'R')) ∧
      k ≤ 0 :=
  validate_pair_first_mismatch _ _ (by rfl) 0 4 (by omega) (by decide) (by decide)
    (by decide) (by decide)

/-- C5: the arrow-opposite table is a fixed-point-free involution on the
four arrow symbols, and a successful pairwise validation places the
table's opposite of every source arrow at the same target position. -/
theorem arrow_opposites_involution :
    (∀ c, is_arrow c = true →
      ∃ d, ARROW_OPPOSITES c = some d ∧ d ≠ c ∧ is_arrow d = true ∧
        ARROW_OPPOSITES d = some c) ∧
    (∀ (s t : List Char) (i : Nat), validate_tangram_pair s t = .ok →
      i < s.length → i < t.length → is_arrow (s.getD i 'R') = true →
      ARROW_OPPOSITES (s.getD i 'R') = some (t.getD i 'R')) := by
  constructor
  · exact fun c h => arrow_opposite_total h
  · intro s t i hok hi1 hi2 ha
    have hfm : firstMismatch s t = none := (pair_loop_ok_iff s t 0).mp hok
    have hm := (firstMismatch_none_iff s t).mp hfm i hi1 hi2
    exact (matchesAt_arrow ha).mp hm

/-- Witness for C5 at the arrow symbol `P`. -/
theorem arrow_opposites_involution_witness :
    ∃ d, ARROW_OPPOSITES 'P' = some d ∧ d ≠ 'P' ∧ is_arrow d = true ∧
      ARROW_OPPOSITES d = some 'P' :=
  arrow_opposites_involution.1 'P' (by decide)

theorem pair_loop_cons_congr (l1 l2 : Char) (i0 : Nat) {r1 r2 r1' r2' : List Char}
    (h : pair_loop (i0 + 1) r1 r2 = pair_loop (i0 + 1) r1' r2') :
    pair_loop i0 (l1 :: r1) (l2 :: r2) = pair_loop i0 (l1 :: r1') (l2 :: r2') := by
  simp only [pair_loop]
  by_cases hc : is_color l1 = true
  · by_cases hc2 : is_color l2 = true
    · simp [hc, hc2, h]
    · simp [hc, Bool.eq_false_iff.mpr hc2]
  · have hcf : is_color l1 = false := Bool.eq_false_iff.mpr hc
    by_cases ha2 : is_arrow l2 = true
    · cases hop : ARROW_OPPOSITES l1 with
      | none => simp [hcf, ha2, hop]
      | some opp =>
        by_cases he : opp = l2
        · subst he
          simp [hcf, ha2, hop, h]
        · simp [hcf, ha2, hop, he]
    · simp [hcf, Bool.eq_false_iff.mpr ha2]

theorem pair_loop_take : ∀ (s t : List Char) (i0 : Nat),
    pair_loop i0 s t
      = pair_loop i0 (s.take (min s.length t.length)) (t.take (min s.length t.length)) := by
  intro s
  induction s with
  | nil => intro t i0; cases t <;> rfl
  | cons l1 r1 ih =>
    intro t i0
    cases t with
    | nil => rfl
    | cons l2 r2 =>
      simp only [List.length_cons, Nat.succ_min_succ, List.take_succ_cons]
      exact pair_loop_cons_congr l1 l2 i0 (ih r2 (i0 + 1))

/-- C9: `validate_tangram_pair` inspects only the common prefix of the two
encodings; in particular it accepts any source against the empty target. -/
theorem validate_pair_common_prefix_spec :
    (∀ s : List Char, validate_tangram_pair s [] = .ok) ∧
    (∀ s t : List Char,
      validate_tangram_pair s t
        = validate_tangram_pair (s.take (min s.length t.length))
            (t.take (min s.length t.length))) := by
  constructor
  · intro s; cases s <;> rfl
  · intro s t; exact pair_loop_take s t 0

/-- C10: when every source symbol is in the alphabet,
`validate_tangram_pair` returns success or a validation error (never the
uncaught lookup failure); without the precondition the lookup failure is
reachable, witnessed by source `"X"` against target `"P"`. -/
theorem validate_pair_total_on_valid :
    (∀ s t : List Char, (∀ c ∈ s, (is_color c || is_arrow c) = true) →
      validate_tangram_pair s t = .ok ∨ ∃ e, validate_tangram_pair s t = .err e) ∧
    validate_tangram_pair ['X'] ['P'] = .keyError 'X' := by
  constructor
  · intro s t hv
    cases hfm : firstMismatch s t with
    | none => exact Or.inl ((pair_loop_ok_iff s t 0).mpr hfm)
    | some j =>
      obtain ⟨e, he, -⟩ := pair_loop_err_spec s t 0 j hv hfm
      exact Or.inr ⟨e, he⟩
  · rfl

/-- Witness for C10's guarded totality at a concrete valid source. -/
theorem validate_pair_total_on_valid_witness :
    validate_tangram_pair ['R'] ['P'] = .ok ∨
      ∃ e, validate_tangram_pair ['R'] ['P'] = .err e :=
  validate_pair_total_on_valid.1 ['R'] ['P'] (by decide)

/-- C2 counterexample: in a `wz` set whose entry 1 is syntactically valid
but unmapped and whose entry 2 is syntactically invalid, the dataset
validator reports the unmapped entry 1 — so membership of entry 1 is
checked before entry 2 is ever syntactically validated, contradicting a
whole-set syntactic pass happening first. -/
theorem validate_tangrams_set_phase_cex :
    validate_tangrams
        [(1, ['R', 'Y', 'B', 'B', 'P', 'S']), (2, ['X', 'X', 'X', 'X', 'X', 'X'])] [] []
      = .err (.unmappedWz 1) ∧
    validate_tangram ['X', 'X', 'X', 'X', 'X', 'X'] = .error (.invalidSymbol 'X') ∧
    RunOutcome.err (DErr.unmappedWz 1)
      ≠ .err (.badSoloWz 2 (.invalidSymbol 'X')) := by
  refine ⟨by rfl, by rfl, by decide⟩

/-- C2 (amended): each set is processed entry by entry in order — for
every entry its syntactic validation runs and then its own mapping
membership is checked before the next entry is touched — so the surfaced
error belongs to the earliest offending entry: its wrapped syntactic
failure if it has one, otherwise its unmapped-name failure; the whole `wz`
set is processed before the `codm` set. -/
theorem validate_tangrams_set_phase :
    (∀ (wz pre rest : List (Nat × List Char)) (entry : Nat × List Char)
        (codm : List (String × List Char)) (mapping : List (Nat × String)),
      wz = pre ++ entry :: rest →
      (∀ p ∈ pre, wzEntryOk mapping p) →
      ¬ wzEntryOk mapping entry →
      validate_tangrams wz codm mapping = .err (wzEntryErr entry)) ∧
    (∀ (wz : List (Nat × List Char)) (codm pre rest : List (String × List Char))
        (entry : String × List Char) (mapping : List (Nat × String)),
      codm = pre ++ entry :: rest →
      validate_set_wz mapping wz = none →
      (∀ p ∈ pre, codmEntryOk mapping p) →
      ¬ codmEntryOk mapping entry →
      validate_tangrams wz codm mapping = .err (codmEntryErr entry)) := by
  constructor
  · intro wz pre rest entry codm mapping hwz hpre hbad
    subst hwz
    unfold validate_tangrams
    rw [validate_set_wz_first_bad mapping pre entry rest hpre hbad]
  · intro wz codm pre rest entry mapping hcodm hwz hpre hbad
    subst hcodm
    unfold validate_tangrams
    rw [hwz, validate_set_codm_first_bad mapping pre entry rest hpre hbad]

/-- Witness for C2's amended theorem: a single offending entry. -/
theorem validate_tangrams_set_phase_witness :
    validate_tangrams [(1, ['X', 'X', 'X', 'X', 'X', 'X'])] [] []
      = .err (wzEntryErr (1, ['X', 'X', 'X', 'X', 'X', 'X'])) :=
  validate_tangrams_set_phase.1 _ [] [] _ [] [] rfl (by simp) (by decide)

/-- C6 counterexample: with empty tangram sets and the single mapping
entry `1 ↦ "a"`, the non-skipped entry's target `"a"` is absent from the
target set, yet the validator fails with the missing-source error (the
source lookup runs first), not with the missing-target error. -/
theorem validate_pairs_skip_and_missing_cex :
    validate_tangrams [] [] [(1, "a")] = .err (.missingWz 1) ∧
    RunOutcome.err (DErr.missingWz 1) ≠ .err (.missingCodm "a") := by
  refine ⟨by rfl, by decide⟩

/-- C6 (amended): the pairwise phase skips every mapping entry with an
empty target name, raising nothing for it; a non-skipped entry whose
source name is present in the source set but whose target name is absent
from the target set fails with the missing-target error. -/
theorem validate_pairs_skip_and_missing :
    (∀ (wz : List (Nat × List Char)) (codm : List (String × List Char))
        (n : Nat) (rest : List (Nat × String)),
      validate_pairs wz codm ((n, "") :: rest) = validate_pairs wz codm rest) ∧
    (∀ (wz : List (Nat × List Char)) (codm : List (String × List Char))
        (pre rest : List (Nat × String)) (wzName : Nat) (codmName : String),
      (∀ p ∈ pre, pairEntryOk wz codm p) →
      codmName ≠ "" →
      (List.lookup wzName wz).isSome = true →
      List.lookup codmName codm = none →
      validate_pairs wz codm (pre ++ (wzName, codmName) :: rest)
        = .err (.missingCodm codmName)) := by
  constructor
  · intro wz codm n rest
    rfl
  · intro wz codm pre rest wzName codmName hpre hne hwz hcodm
    rw [validate_pairs_append_ok pre ((wzName, codmName) :: rest) wz codm hpre]
    obtain ⟨wzT, hwzT⟩ := Option.isSome_iff_exists.mp hwz
    unfold validate_pairs
    rw [if_neg hne, hwzT, hcodm]

/-- Witness for C6's amended theorem. -/
theorem validate_pairs_skip_and_missing_witness :
    validate_pairs [(1, ['R'])] [] ([] ++ [(1, "a")]) = .err (.missingCodm "a") :=
  validate_pairs_skip_and_missing.2 [(1, ['R'])] [] [] [] 1 "a" (by simp) (by decide)
    (by rfl) (by rfl)
